import Mathlib

/-!
Shallow embedding of the agent-lifecycle / energy-economy core of
`AutopoieticKernel.py` (classes `EnhancedAutopoieticSystem`, `MetaAgent`,
`AutopoieticKernel`), together with theorems settling the frozen claims
about it.

Modelling conventions, stated once:
* Python `float` energies are modelled as exact rationals (`ℚ`); every
  arithmetic operation the code performs on energy (`* 0.5`, `+`, `-`,
  `/ n`) is exact on the values that occur.
* `uuid.uuid4()` identifiers are modelled as consecutively allocated
  naturals (`nextId`); the code only ever compares ids for equality.
* Object identity: every `MetaAgent` object lives in a heap-like
  association list `store : List (Nat × MetaAgent)` keyed by id; the
  registry `self.agents` is the list `registered` of its keys, and a
  parent's `subagents` list holds child ids, so the aliasing produced by
  `create_subagent` appending the same object twice is represented
  faithfully.
* Wall-clock fields (`timestamp`, `system_uptime`) and thread handles are
  not modelled; no claim mentions them.  Thread *starts* are not executed:
  the embedding is the sequential semantics of each operation's own body.
* The single shared `threading.Lock` is non-reentrant.  All operations
  except `terminate_agent` acquire it only at the top of their body and
  release it before any nested acquisition, so for them the lock is
  semantically invisible in the sequential semantics.  `terminate_agent`
  re-acquires the lock inside its own critical section (the recursive
  cascade on line 238 runs under the `with self.lock:` of line 228), so it
  is modelled with an explicit `lockHeld` flag; re-acquisition while held,
  which in Python blocks the thread forever, is modelled as the
  `Except.error` value "deadlock: threading.Lock is not reentrant".
* A raised Python exception is modelled as an `Except.error` carrying the
  exception text and the program state at the moment of the raise.
-/

/-- Python `pat in s` substring test, prefix part: `startsWithL pat s`
is `true` iff `pat` is a prefix of `s` (on character lists). -/
def startsWithL : List Char → List Char → Bool
  | [], _ => true
  | _ :: _, [] => false
  | a :: as, b :: bs => a == b && startsWithL as bs

/-- Python `pat in s` substring containment on character lists. -/
def containsL (pat : List Char) : List Char → Bool
  | [] => startsWithL pat []
  | c :: cs => startsWithL pat (c :: cs) || containsL pat cs

/-- Python `pat in s` on strings (substring containment). -/
def containsS (pat s : String) : Bool :=
  containsL pat.data s.data

/-- Python `s.split("_")` on character lists: maximal runs between
underscores, keeping empty segments, `[""]` on the empty string. -/
def splitU : List Char → List (List Char)
  | [] => [[]]
  | c :: cs =>
    match splitU cs with
    | [] => [[]]
    | h :: t => if c == '_' then [] :: h :: t else (c :: h) :: t

/-- One failure record, as built by `MetaAgent.learn_from_failure`
(lines 178-184).  The wall-clock `timestamp` field is not modelled. -/
structure Insight where
  error_type : String
  context : List String
  energy_at_failure : ℚ
deriving DecidableEq, Repr

/-- The `MetaAgent` state (lines 30-43).  `system` is the enclosing
`SystemState`; `thread` and `active : threading.Event` collapse to the
boolean `active`.  Note the class defines no attribute `lock`. -/
structure MetaAgent where
  id : Nat
  context : List String
  memory : List (String × String)
  energy : ℚ
  parent : Option Nat
  subagents : List Nat
  task_stack : List String
  active : Bool
  reasoning_mode : String
  insights : List Insight
deriving DecidableEq, Repr

/-- The shared state of `EnhancedAutopoieticSystem` (lines 12-27) plus the
object heap `store` holding every `MetaAgent` object in existence.
`registered` is the key list of `self.agents`; `energy_budget` the global
pool; `sysInsights` the `deque(maxlen=100)`; the two counters are the
`metrics` entries the code updates. -/
structure SystemState where
  store : List (Nat × MetaAgent)
  registered : List Nat
  energy_budget : ℚ
  sysInsights : List Insight
  tasks_processed : Nat
  agents_created : Nat
  nextId : Nat
deriving DecidableEq, Repr

/-- Heap lookup: the object bound to id `i` (first hit). -/
def storeGet : List (Nat × MetaAgent) → Nat → Option MetaAgent
  | [], _ => none
  | p :: rest, i => if p.1 = i then some p.2 else storeGet rest i

/-- Heap update: replace the object bound to id `i` (in-place mutation of
the Python object all references alias). -/
def updStore (st : List (Nat × MetaAgent)) (i : Nat) (a : MetaAgent) :
    List (Nat × MetaAgent) :=
  st.map (fun p => if p.1 = i then (i, a) else p)

/-- Heap removal, modelling that a terminated, childless, deregistered
top-level agent is no longer referenced by anything. -/
def delStore (st : List (Nat × MetaAgent)) (i : Nat) :
    List (Nat × MetaAgent) :=
  st.filter (fun p => p.1 != i)

/-- `del self.agents[agent_id]` on the registry key list. -/
def removeId (l : List Nat) (i : Nat) : List Nat :=
  l.filter (fun j => j != i)

/-- Convenience: write one agent back into the system's heap. -/
def putAgent (s : SystemState) (i : Nat) (a : MetaAgent) : SystemState :=
  { s with store := updStore s.store i a }

/-- A fresh top-level `MetaAgent.__init__` with `parent=None` and no
initial context (lines 30-43): energy 100, analytic mode, active. -/
def freshAgent (i : Nat) : MetaAgent :=
  { id := i, context := [], memory := [], energy := 100, parent := none,
    subagents := [], task_stack := [], active := true,
    reasoning_mode := "analytic", insights := [] }

/-- `EnhancedAutopoieticSystem.__init__` (lines 12-27): empty registry,
`energy_budget = 1000`, empty insight log, zeroed counters. -/
def initSystem : SystemState :=
  { store := [], registered := [], energy_budget := 1000, sysInsights := [],
    tasks_processed := 0, agents_created := 0, nextId := 0 }

/-- `EnhancedAutopoieticSystem.spawn_new_agent` (lines 216-225): create a
fresh agent, register it, optionally queue the initial task, bump
`agents_created`, return its id.  (The thread start is not executed.) -/
def spawn_new_agent (s : SystemState) (initial_task : Option String) :
    SystemState × Nat :=
  let aid := s.nextId
  let a := freshAgent aid
  let a :=
    match initial_task with
    | some t => { a with task_stack := a.task_stack ++ [t] }
    | none => a
  ({ s with store := s.store ++ [(aid, a)],
            registered := s.registered ++ [aid],
            agents_created := s.agents_created + 1,
            nextId := aid + 1 }, aid)

/-- `MetaAgent.check_for_loops` (lines 78-79):
`len(self.context) != len(set(self.context))`. -/
def check_for_loops (ctx : List String) : Bool :=
  ctx.length != ctx.dedup.length

/-- Python `list(set(ctx))` (line 126).  The set's iteration order is
arbitrary; `List.dedup` (keep first occurrences) is the canonical
representative, and every claim about it is order-insensitive. -/
def dedupPy (ctx : List String) : List String :=
  ctx.dedup

/-- `MetaAgent.simplify_context` (lines 131-132). -/
def simplify_context (ctx : List String) : List String :=
  ctx.filter (fun c => !(startsWithL "sub(".data c.data))

/-- `MetaAgent.derive_subcontext` (lines 104-105).  Its result is passed
to `__init__` as `initial_context` but is then overwritten by
`inherit_knowledge` (line 52), which copies the parent's full context. -/
def derive_subcontext (ctx : List String) (purpose : String) : List String :=
  ("sub(" ++ purpose ++ ")") :: ctx.take 2

/-- `MetaAgent.create_subagent` (lines 81-102) together with the
child-constructing part of `MetaAgent.__init__` (lines 45-49).
Requires `energy > 40`.  The child's `initial_context`
(`derive_subcontext`) is clobbered by `inherit_knowledge`, so the child
inherits the parent's full context, memory and reasoning mode; the child
receives exactly half of the parent's current energy; and the child id is
appended to the parent's `subagents` list TWICE: once by
`parent.subagents.append(self)` in `__init__` (line 49) and once by
`self.subagents.append(new_agent)` in `create_subagent` (line 91). -/
def create_subagent (s : SystemState) (pid : Nat) (purpose : Option String) :
    SystemState × Option Nat :=
  match storeGet s.store pid with
  | none => (s, none)
  | some parent =>
    if parent.energy > 40 then
      let purp := purpose.getD ("subagent_" ++ toString parent.subagents.length)
      let cid := s.nextId
      let childEnergy := parent.energy * (1 / 2)
      let child : MetaAgent :=
        { id := cid, context := parent.context, memory := parent.memory,
          energy := childEnergy, parent := some pid, subagents := [],
          task_stack := [purp], active := true,
          reasoning_mode := parent.reasoning_mode, insights := [] }
      let parent' :=
        { parent with energy := parent.energy - childEnergy,
                      subagents := parent.subagents ++ [cid, cid] }
      ({ s with store := updStore s.store pid parent' ++ [(cid, child)],
                agents_created := s.agents_created + 1,
                nextId := cid + 1 }, some cid)
    else (s, none)

/-- Append to the system's `deque(maxlen=100)` insight log: the oldest
entry is evicted once the capacity is exceeded. -/
def pushBounded (l : List Insight) (i : Insight) : List Insight :=
  let l' := l ++ [i]
  if l'.length > 100 then l'.tail else l'

/-- The failure record of `learn_from_failure` (lines 179-184), minus the
unmodelled wall-clock timestamp. -/
def mk_failure_insight (e : String) (a : MetaAgent) : Insight :=
  { error_type := e, context := a.context, energy_at_failure := a.energy }

/-- `MetaAgent.learn_from_failure` (lines 178-189): record the failure in
the agent's own log and the system's bounded log, switch to adaptive
reasoning, and grant the +10 energy bonus. -/
def learn_from_failure (s : SystemState) (aid : Nat) (e : String) :
    SystemState :=
  match storeGet s.store aid with
  | none => s
  | some a =>
    let ins := mk_failure_insight e a
    let a' := { a with insights := a.insights ++ [ins],
                       reasoning_mode := "adaptive",
                       energy := a.energy + 10 }
    { putAgent s aid a' with sysInsights := pushBounded s.sysInsights ins }

/-- One iteration of the loop body of `MetaAgent.consolidate_subagents`
(lines 136-140), for one entry of the parent's `subagents` list:
`self.context.extend(agent.context); self.energy += agent.energy;
agent.energy = 0; agent.active.clear()`, with Python's in-order object
writes. -/
def consolidate_step (s : SystemState) (pid sub : Nat) : SystemState :=
  match storeGet s.store pid with
  | none => s
  | some p =>
    match storeGet s.store sub with
    | none => s
    | some c =>
      let s1 := putAgent s pid
        { p with context := p.context ++ c.context, energy := p.energy + c.energy }
      match storeGet s1.store sub with
      | none => s1
      | some c' => putAgent s1 sub { c' with energy := 0, active := false }

/-- `MetaAgent.consolidate_subagents` (lines 134-141): fold the loop over
the (fixed) `subagents` list, then empty the list. -/
def consolidate_subagents (s : SystemState) (pid : Nat) : SystemState :=
  match storeGet s.store pid with
  | none => s
  | some p =>
    let s' := p.subagents.foldl (fun st sub => consolidate_step st pid sub) s
    match storeGet s'.store pid with
    | none => s'
    | some p' => putAgent s' pid { p' with subagents := [] }

/-- `MetaAgent.reason_about_self` / `assess_capabilities` /
`detect_limitations` (lines 56-76), as the Python dict it returns. -/
inductive PyVal where
  | s (v : String)
  | q (v : ℚ)
  | n (v : Nat)
  | b (v : Bool)
  | dict (entries : List (String × PyVal))

/-- Python truthiness of the values that occur as task results. -/
def pyTruthy : PyVal → Bool
  | .s v => v != ""
  | .q v => v != 0
  | .n v => v != 0
  | .b v => v
  | .dict d => !d.isEmpty

/-- One `d[k] = v` step of Python `dict.update`: overwrite an existing
key in place, else append. -/
def setKey (d : List (String × PyVal)) (kv : String × PyVal) :
    List (String × PyVal) :=
  if d.any (fun p => p.1 == kv.1) then
    d.map (fun p => if p.1 == kv.1 then kv else p)
  else d ++ [kv]

/-- Python `d.update(patch)` for string-keyed dicts. -/
def dictUpdate (d patch : List (String × PyVal)) : List (String × PyVal) :=
  patch.foldl setKey d

/-- `MetaAgent.reason_about_self` (lines 56-62) with its two helpers
(lines 64-76), evaluated on the agent's current state. -/
def reason_about_self (a : MetaAgent) : PyVal :=
  .dict
    [("capabilities", .dict
        [("context_depth", .n a.context.length),
         ("processing_power", .q (a.energy * 10)),
         ("subagent_count", .n a.subagents.length)]),
     ("limitations", .dict
        [("context_overload", .b (decide (a.context.length > 10))),
         ("energy_critical", .b (decide (a.energy < 20))),
         ("reasoning_loops", .b (check_for_loops a.context))]),
     ("energy_efficiency", .q (a.energy / ((a.subagents.length : ℚ) + 1)))]

/-- `MetaAgent.strategic_evolution` (lines 116-129).  The limitation
flags and efficiency are read from the precomputed analysis (i.e. from
the agent state at entry), while the context rewrites apply to the
current context, exactly as in the source. -/
def strategic_evolution (s : SystemState) (aid : Nat) : SystemState :=
  match storeGet s.store aid with
  | none => s
  | some a =>
    if a.energy < 10 then
      putAgent s aid { a with reasoning_mode := "conservative" }
    else
      let overload := decide (a.context.length > 10)
      let loops := check_for_loops a.context
      let eff := a.energy / ((a.subagents.length : ℚ) + 1)
      let a1 := if overload then { a with context := simplify_context a.context } else a
      let a2 := if loops then { a1 with context := dedupPy a1.context } else a1
      let s2 := putAgent s aid a2
      if eff < 5 then consolidate_subagents s2 aid else s2

/-- `MetaAgent.needs_decomposition` (lines 158-160):
`len(task.split("_")) > 2 or "multi" in task`. -/
def needs_decomposition (task : String) : Bool :=
  decide ((splitU task.data).length > 2) || containsS "multi" task

/-- `MetaAgent.decompose_problem` (lines 107-114). -/
def decompose_problem (problem : String) : List String :=
  (if containsS "multi-aspect" problem then
     ["structural", "behavioral", "temporal"] else []) ++
  (if containsS "recursive" problem then
     ["base_case", "inductive_step"] else [])

/-- `MetaAgent.execute_core_reasoning` (lines 162-168).  The "optimize"
branch runs `strategic_evolution` first and reports the agent's energy
AFTER it. -/
def execute_core_reasoning (s : SystemState) (aid : Nat) (task : String) :
    SystemState × Option PyVal :=
  match storeGet s.store aid with
  | none => (s, none)
  | some a =>
    if containsS "analyze" task then (s, some (reason_about_self a))
    else if containsS "optimize" task then
      let s' := strategic_evolution s aid
      let e := match storeGet s'.store aid with
               | some a' => a'.energy
               | none => a.energy
      (s', some (.dict [("status", .s "optimized"), ("energy", .q e)]))
    else (s, some (.dict [("status", .s "completed"), ("energy", .q a.energy)]))

/-- Result type of the `try` body of `process_task`: either a raised
exception (text plus the state at the raise) or the normal result. -/
abbrev PTOut := Except (String × SystemState) (SystemState × Option PyVal)

/-- The mutually recursive call shapes of `process_task` (lines 143-176):
the full method, its `try` body, its component loop, and the fold inside
`synthesize_results`. -/
inductive PtCall where
  | mainC (aid : Nat) (task : String)
  | bodyC (aid : Nat) (task : String)
  | compsC (aid : Nat) (cs : List String)
  | synthC (aid : Nat) (subs : List Nat) (syn : List (String × PyVal))

/-- Answers of the four call shapes of `PtCall`. -/
inductive PtAns where
  | mainA (s : SystemState) (r : Option PyVal)
  | bodyA (r : PTOut)
  | compsA (s : SystemState)
  | synthA (r : Except (String × SystemState)
      (SystemState × List (String × PyVal)))

/-- The mutual recursion of `process_task` / its `try` body /
`decompose`-loop / `synthesize_results` (lines 143-176), packaged as one
structural recursion on `fuel` so that closed executions reduce inside
the kernel.  `none` means the fuel ran out (never the case for the
executions the theorems mention).  Each shape:
* `mainC` (lines 143-156): run the body; a raised exception is caught,
  fed to `learn_from_failure`, and `None` is returned.
* `bodyC` (lines 145-153): decompose, delegate and synthesize, or
  execute directly.
* `compsC` (lines 147-150): one subagent per component, processing the
  component synchronously (result discarded); `None` from
  `create_subagent` is skipped.
* `synthC` (lines 170-176): fold over the parent's current `subagents`;
  `agent.task_stack[-1]` on an empty deque raises `IndexError`;
  `synthesis.update(result)` runs only when `result` is truthy and
  would raise `TypeError` on a truthy non-dict. -/
def ptRun : Nat → SystemState → PtCall → Option PtAns
  | 0, _, _ => none
  | g + 1, s, c =>
    match c with
    | .mainC aid task =>
      match ptRun g s (.bodyC aid task) with
      | some (.bodyA (.ok r)) => some (.mainA r.1 r.2)
      | some (.bodyA (.error (e, s1))) =>
        some (.mainA (learn_from_failure s1 aid e) none)
      | _ => none
    | .bodyC aid task =>
      if needs_decomposition task then
        match ptRun g s (.compsC aid (decompose_problem task)) with
        | some (.compsA s') =>
          match storeGet s'.store aid with
          | none => some (.bodyA (.ok (s', some (.dict []))))
          | some a' =>
            match ptRun g s' (.synthC aid a'.subagents []) with
            | some (.synthA (.error es)) => some (.bodyA (.error es))
            | some (.synthA (.ok (s'', syn))) =>
              some (.bodyA (.ok (s'', some (.dict syn))))
            | _ => none
        | _ => none
      else some (.bodyA (.ok (execute_core_reasoning s aid task)))
    | .compsC aid cs =>
      match cs with
      | [] => some (.compsA s)
      | comp :: rest =>
        match create_subagent s aid (some comp) with
        | (s1, none) => ptRun g s1 (.compsC aid rest)
        | (s1, some cid) =>
          match ptRun g s1 (.mainC cid comp) with
          | some (.mainA s2 _) => ptRun g s2 (.compsC aid rest)
          | _ => none
    | .synthC aid subs syn =>
      match subs with
      | [] => some (.synthA (.ok (s, syn)))
      | sub :: rest =>
        match storeGet s.store sub with
        | none => some (.synthA (.ok (s, syn)))
        | some c =>
          match c.task_stack.getLast? with
          | none =>
            some (.synthA (.error ("IndexError: deque index out of range", s)))
          | some tk =>
            match ptRun g s (.mainC sub tk) with
            | some (.mainA s2 r) =>
              match r with
              | none => ptRun g s2 (.synthC aid rest syn)
              | some v =>
                if pyTruthy v then
                  match v with
                  | .dict kvs => ptRun g s2 (.synthC aid rest (dictUpdate syn kvs))
                  | _ => some (.synthA (.error
                      ("TypeError: update expects a mapping", s2)))
                else ptRun g s2 (.synthC aid rest syn)
            | _ => none

/-- `MetaAgent.process_task` (lines 143-156), via `ptRun`. -/
def process_task (fuel : Nat) (s : SystemState) (aid : Nat) (task : String) :
    Option (SystemState × Option PyVal) :=
  match ptRun fuel s (.mainC aid task) with
  | some (.mainA s' r) => some (s', r)
  | _ => none

/-- The `try` body of `process_task` (lines 145-153), via `ptRun`. -/
def ptBody (fuel : Nat) (s : SystemState) (aid : Nat) (task : String) :
    Option PTOut :=
  match ptRun fuel s (.bodyC aid task) with
  | some (.bodyA r) => some r
  | _ => none

/-- The `self_preservation` axiom of `initialize_axioms` (line 202):
`lambda x: x.energy > 0`. -/
def ax_self_preservation (a : MetaAgent) : Except String Bool :=
  .ok (decide (a.energy > 0))

/-- The `knowledge_retention` axiom (line 203): `len(x.context) < 20`. -/
def ax_knowledge_retention (a : MetaAgent) : Except String Bool :=
  .ok (decide (a.context.length < 20))

/-- The `complexity_boundary` axiom (line 204): `len(x.subagents) < 5`. -/
def ax_complexity_boundary (a : MetaAgent) : Except String Bool :=
  .ok (decide (a.subagents.length < 5))

/-- The `thread_safety` axiom (line 205): `lambda x: x.lock.locked() is
False`.  `x` is a `MetaAgent`, and `MetaAgent` defines no attribute
`lock` anywhere (lines 30-49 set `id, system, context, memory, energy,
parent, subagents, task_stack, thread, active, reasoning_mode, insights`
only), so evaluating this axiom on any agent raises `AttributeError`. -/
def ax_thread_safety (_ : MetaAgent) : Except String Bool :=
  .error "AttributeError: MetaAgent object has no attribute lock"

/-- The axiom dict of `initialize_axioms` (lines 200-206), in insertion
order. -/
def axioms_list : List (MetaAgent → Except String Bool) :=
  [ax_self_preservation, ax_knowledge_retention, ax_complexity_boundary,
   ax_thread_safety]

/-- Python `all(ax(agent) for ax in axioms.values())`: short-circuit
conjunction; a raised exception propagates. -/
def run_all_checks : List (MetaAgent → Except String Bool) → MetaAgent →
    Except String Bool
  | [], _ => .ok true
  | f :: rest, a =>
    match f a with
    | .error e => .error e
    | .ok false => .ok false
    | .ok true => run_all_checks rest a

/-- Evaluation of all four axioms on one agent, as done both by
`AutopoieticKernel.check_axioms` (line 325) and by
`system_health_check` (lines 261-264). -/
def all_axioms_hold (a : MetaAgent) : Except String Bool :=
  run_all_checks axioms_list a

/-- The two call shapes of the recursive `terminate_agent`: one id, or
the `for subagent in agent.subagents:` cascade. -/
inductive TermCall where
  | one (aid : Nat)
  | many (subs : List Nat)

/-- `EnhancedAutopoieticSystem.terminate_agent` (lines 227-242) with the
shared lock modelled explicitly, packaged as one structural recursion on
`fuel`.  `with self.lock:` at line 228 blocks forever when the same
thread already holds the (non-reentrant) lock, which the recursive
cascade at line 238 always does; this permanent block is the
`Except.error "deadlock: ..."` value.  On the successful (childless)
path: clear `active`, return the residual energy to `energy_budget`, run
the (empty) cascade, delete the registry entry (the now-unreferenced
object leaves the heap), return `True`; an unknown id returns `False`
with no state change.  `many` folds the cascade while still holding the
lock. -/
def termRun : Nat → Bool → SystemState → TermCall →
    Except String (SystemState × Bool)
  | 0, _, _, _ => .error "out of fuel"
  | g + 1, lockHeld, s, c =>
    match c with
    | .one aid =>
      if lockHeld then .error "deadlock: threading.Lock is not reentrant"
      else if s.registered.contains aid then
        match storeGet s.store aid with
        | none => .error "registry entry without object"
        | some agent =>
          let s1 : SystemState :=
            { s with store := updStore s.store aid { agent with active := false },
                     energy_budget := s.energy_budget + agent.energy }
          match termRun g true s1 (.many agent.subagents) with
          | .error e => .error e
          | .ok (s2, _) =>
            .ok ({ s2 with registered := removeId s2.registered aid,
                           store := delStore s2.store aid }, true)
      else .ok (s, false)
    | .many [] => .ok (s, true)
    | .many (sub :: rest) =>
      match termRun g lockHeld s (.one sub) with
      | .error e => .error e
      | .ok (s', _) => termRun g lockHeld s' (.many rest)

/-- `terminate_agent` as called from outside (not holding the lock), with
enough fuel for any cascade over the current heap. -/
def terminate_agent (s : SystemState) (aid : Nat) :
    Except String (SystemState × Bool) :=
  termRun (s.store.length + 3) false s (.one aid)

/-- The loop body of `AutopoieticKernel.check_axioms` (lines 323-326)
over the snapshot of registry ids: any agent failing the conjunction is
terminated; a raised `AttributeError` (or the cascade deadlock)
propagates and aborts the loop. -/
def check_axioms_go : SystemState → List Nat → Except String SystemState
  | s, [] => .ok s
  | s, aid :: rest =>
    match storeGet s.store aid with
    | none => check_axioms_go s rest
    | some agent =>
      match all_axioms_hold agent with
      | .error e => .error e
      | .ok true => check_axioms_go s rest
      | .ok false =>
        match terminate_agent s aid with
        | .error e => .error e
        | .ok (s', _) => check_axioms_go s' rest

/-- `AutopoieticKernel.check_axioms` (lines 323-326). -/
def check_axioms (s : SystemState) : Except String SystemState :=
  check_axioms_go s s.registered

/-- Bump every registered agent's energy by `share` (the loop of
`distribute_energy`, lines 249-250). -/
def bumpStore (st : List (Nat × MetaAgent)) (reg : List Nat) (share : ℚ) :
    List (Nat × MetaAgent) :=
  st.map (fun p =>
    if reg.contains p.1 then (p.1, { p.2 with energy := p.2.energy + share })
    else p)

/-- `EnhancedAutopoieticSystem.distribute_energy` (lines 244-251): when
at least one agent is registered, add `energy_budget / n` to each
registered agent and zero the pool; otherwise do nothing. -/
def distribute_energy (s : SystemState) : SystemState :=
  if s.registered.length > 0 then
    { s with store := bumpStore s.store s.registered
               (s.energy_budget / (s.registered.length : ℚ)),
             energy_budget := 0 }
  else s

/-- One cycle of the kernel's `self_preservation` loop (lines 295-299):
`check_axioms()` then `distribute_energy()`. -/
def self_preservation_cycle (s : SystemState) : Except String SystemState :=
  match check_axioms s with
  | .error e => .error e
  | .ok s' => .ok (distribute_energy s')

/-- Sum of the energies of all agent objects in the heap. -/
def storeSum (st : List (Nat × MetaAgent)) : ℚ :=
  (st.map (fun p => p.2.energy)).sum

/-- The conserved quantity of the spec's energy-economy invariant:
the global pool plus the energy of every live agent object. -/
def totalEnergy (s : SystemState) : ℚ :=
  s.energy_budget + storeSum s.store

/-- Sum of the energies of the registered agents only (the quantity
`system_health_check` reports, line 257). -/
def regSum (s : SystemState) : ℚ :=
  (s.registered.map (fun i =>
    match storeGet s.store i with
    | some a => a.energy
    | none => 0)).sum

/-- The energy-touching operations of the system, for the energy-economy
claim: top-level spawning, termination, redistribution, child creation,
the exception-recovery bonus, and subagent consolidation. -/
inductive SysOp where
  | spawnOp (t : Option String)
  | terminateOp (aid : Nat)
  | distributeOp
  | createSubOp (aid : Nat) (purpose : Option String)
  | learnFailOp (aid : Nat) (e : String)
  | consolidateOp (aid : Nat)

/-- Apply one operation; `Except.error` covers the deadlocking
termination cascade, which never yields a successor state. -/
def applyOp (s : SystemState) : SysOp → Except String SystemState
  | .spawnOp t => .ok (spawn_new_agent s t).1
  | .terminateOp aid =>
    match terminate_agent s aid with
    | .error e => .error e
    | .ok (s', _) => .ok s'
  | .distributeOp => .ok (distribute_energy s)
  | .createSubOp aid p => .ok (create_subagent s aid p).1
  | .learnFailOp aid e => .ok (learn_from_failure s aid e)
  | .consolidateOp aid => .ok (consolidate_subagents s aid)

/-- The exact amount of energy each operation creates from nowhere:
a new top-level agent's fixed allotment of 100, and the +10 failure
bonus; every other operation conserves `totalEnergy`. -/
def opDelta (s : SystemState) : SysOp → ℚ
  | .spawnOp _ => 100
  | .learnFailOp aid _ => if (storeGet s.store aid).isSome then 10 else 0
  | _ => 0

/-- Heap/registry sanity, maintained by construction in the Python
program: heap keys are unique, the registry has no duplicate keys and
only points to existing objects, no object lists itself among its own
subagents, and ids below `nextId` are the only ones allocated. -/
def SysWF (s : SystemState) : Prop :=
  (s.store.map (fun p => p.1)).Nodup ∧
  s.registered.Nodup ∧
  (∀ i ∈ s.registered, (storeGet s.store i).isSome = true) ∧
  (∀ p ∈ s.store, p.1 ∉ p.2.subagents) ∧
  (∀ p ∈ s.store, p.1 < s.nextId)

instance : DecidablePred SysWF := by
  intro s
  unfold SysWF
  infer_instance

/-- A system with exactly one freshly spawned top-level agent (id 0). -/
def sOne : SystemState :=
  (spawn_new_agent initSystem none).1

/-- `sOne` after the agent created two subagents: the registered agent 0
has energy 25, children 1 (energy 50) and 2 (energy 25), and
`subagents = [1, 1, 2, 2]` because of the double append. -/
def sTwoKids : SystemState :=
  (create_subagent (create_subagent sOne 0 none).1 0 none).1

/-- A directly-built two-object heap for the exception witness: the
registered agent 0 has `subagents = [1, 1]` and agent 1 has an EMPTY
task stack, so `synthesize_results` raises `IndexError` on
`agent.task_stack[-1]`. -/
def agentW0 : MetaAgent :=
  { id := 0, context := [], memory := [], energy := 100, parent := none,
    subagents := [1, 1], task_stack := [], active := true,
    reasoning_mode := "analytic", insights := [] }

/-- The empty-stack subagent of `agentW0`. -/
def agentW1 : MetaAgent :=
  { id := 1, context := [], memory := [], energy := 50, parent := some 0,
    subagents := [], task_stack := [], active := true,
    reasoning_mode := "analytic", insights := [] }

/-- The witness system for the exception-handling claim. -/
def sW : SystemState :=
  { store := [(0, agentW0), (1, agentW1)], registered := [0],
    energy_budget := 1000, sysInsights := [], tasks_processed := 0,
    agents_created := 2, nextId := 2 }

/-- A heap whose single agent has too little energy to spawn (30 ≤ 40). -/
def agentLow : MetaAgent :=
  { id := 0, context := [], memory := [], energy := 30, parent := none,
    subagents := [], task_stack := [], active := true,
    reasoning_mode := "analytic", insights := [] }

/-- The low-energy witness system. -/
def sLow : SystemState :=
  { store := [(0, agentLow)], registered := [0], energy_budget := 1000,
    sysInsights := [], tasks_processed := 0, agents_created := 1,
    nextId := 1 }

/-- The registered top-level agent of `sK` (energies written as the
literals `create_subagent` computes). -/
def agK0 : MetaAgent :=
  { id := 0, context := [], memory := [], energy := 25, parent := none,
    subagents := [1, 1, 2, 2], task_stack := [], active := true,
    reasoning_mode := "analytic", insights := [] }

/-- The first child of `agK0`. -/
def agK1 : MetaAgent :=
  { id := 1, context := [], memory := [], energy := 50, parent := some 0,
    subagents := [], task_stack := ["subagent_0"], active := true,
    reasoning_mode := "analytic", insights := [] }

/-- The second child of `agK0`. -/
def agK2 : MetaAgent :=
  { id := 2, context := [], memory := [], energy := 25, parent := some 0,
    subagents := [], task_stack := ["subagent_2"], active := true,
    reasoning_mode := "analytic", insights := [] }

/-- `sTwoKids` with every field written as a literal: one registered
top-level agent with two (doubly appended) subagents. -/
def sK : SystemState :=
  { store := [(0, agK0), (1, agK1), (2, agK2)], registered := [0],
    energy_budget := 1000, sysInsights := [], tasks_processed := 0,
    agents_created := 3, nextId := 3 }

/- ------------------------------------------------------------------
Helper lemmas about the heap, sums and strings.
------------------------------------------------------------------ -/

theorem lcontains_iff {l : List Nat} {a : Nat} :
    l.contains a = true ↔ a ∈ l := by
  simp [List.contains, List.elem_iff]

theorem storeGet_mem {st : List (Nat × MetaAgent)} {i : Nat} {a : MetaAgent} :
    storeGet st i = some a → (i, a) ∈ st := by
  induction st with
  | nil => intro h; simp [storeGet] at h
  | cons p rest ih =>
    obtain ⟨k, v⟩ := p
    intro h
    by_cases hp : k = i
    · simp [storeGet, hp] at h
      subst hp
      subst h
      exact List.mem_cons_self _ _
    · simp only [storeGet] at h
      rw [if_neg hp] at h
      exact List.mem_cons_of_mem _ (ih h)

theorem storeGet_none_of_not_mem {st : List (Nat × MetaAgent)} {i : Nat}
    (h : i ∉ st.map (fun p => p.1)) : storeGet st i = none := by
  induction st with
  | nil => rfl
  | cons p rest ih =>
    obtain ⟨k, v⟩ := p
    simp at h
    simp only [storeGet]
    rw [if_neg (fun hh => h.1 hh.symm)]
    exact ih (by simpa using h.2)

theorem storeGet_updStore_self {st : List (Nat × MetaAgent)} {i : Nat}
    {a b : MetaAgent} (h : storeGet st i = some a) :
    storeGet (updStore st i b) i = some b := by
  induction st with
  | nil => simp [storeGet] at h
  | cons p rest ih =>
    obtain ⟨k, v⟩ := p
    by_cases hp : k = i
    · simp [storeGet, updStore, hp]
    · simp only [storeGet] at h
      rw [if_neg hp] at h
      simp only [updStore, List.map_cons]
      rw [if_neg hp]
      simp only [storeGet]
      rw [if_neg hp]
      exact ih h

theorem storeGet_updStore_other {st : List (Nat × MetaAgent)} {i j : Nat}
    {b : MetaAgent} (h : j ≠ i) :
    storeGet (updStore st i b) j = storeGet st j := by
  induction st with
  | nil => simp [storeGet, updStore]
  | cons p rest ih =>
    obtain ⟨k, v⟩ := p
    by_cases hp : k = i
    · simp only [updStore, List.map_cons]
      rw [if_pos hp]
      simp only [storeGet]
      rw [if_neg (fun hh => h hh.symm), if_neg (fun hh : k = j => h (hp ▸ hh.symm))]
      exact ih
    · simp only [updStore, List.map_cons]
      rw [if_neg hp]
      by_cases hj : k = j
      · simp [storeGet, hj]
      · simp only [storeGet]
        rw [if_neg hj, if_neg hj]
        exact ih

theorem storeGet_append {l1 l2 : List (Nat × MetaAgent)} {i : Nat} :
    storeGet (l1 ++ l2) i =
      match storeGet l1 i with
      | some a => some a
      | none => storeGet l2 i := by
  induction l1 with
  | nil => simp [storeGet]
  | cons p rest ih =>
    obtain ⟨k, v⟩ := p
    by_cases hp : k = i
    · simp [storeGet, hp]
    · simp only [List.cons_append, storeGet]
      rw [if_neg hp, if_neg hp]
      exact ih

theorem updStore_keys (st : List (Nat × MetaAgent)) (i : Nat) (b : MetaAgent) :
    (updStore st i b).map (fun p => p.1) = st.map (fun p => p.1) := by
  induction st with
  | nil => simp [updStore]
  | cons p rest ih =>
    obtain ⟨k, v⟩ := p
    by_cases hp : k = i
    · simp only [updStore, List.map_cons] at ih ⊢
      rw [if_pos hp]
      simp only [List.map_cons]
      rw [hp]
      exact congrArg _ ih
    · simp only [updStore, List.map_cons] at ih ⊢
      rw [if_neg hp]
      simp only [List.map_cons]
      exact congrArg _ ih

theorem updStore_of_not_mem {st : List (Nat × MetaAgent)} {i : Nat}
    {b : MetaAgent} (h : i ∉ st.map (fun p => p.1)) : updStore st i b = st := by
  induction st with
  | nil => simp [updStore]
  | cons p rest ih =>
    obtain ⟨k, v⟩ := p
    simp at h
    simp only [updStore, List.map_cons]
    rw [if_neg (fun hh => h.1 hh.symm)]
    have := ih (by simpa using h.2)
    simp only [updStore] at this
    rw [this]

theorem storeSum_append (l1 l2 : List (Nat × MetaAgent)) :
    storeSum (l1 ++ l2) = storeSum l1 + storeSum l2 := by
  simp [storeSum, List.sum_append]

theorem storeSum_cons (p : Nat × MetaAgent) (rest : List (Nat × MetaAgent)) :
    storeSum (p :: rest) = p.2.energy + storeSum rest := by
  simp [storeSum]

theorem storeSum_updStore {st : List (Nat × MetaAgent)} {i : Nat}
    {a b : MetaAgent} (hnd : (st.map (fun p => p.1)).Nodup)
    (h : storeGet st i = some a) :
    storeSum (updStore st i b) = storeSum st - a.energy + b.energy := by
  induction st with
  | nil => simp [storeGet] at h
  | cons p rest ih =>
    obtain ⟨k, v⟩ := p
    rw [List.map_cons, List.nodup_cons] at hnd
    by_cases hp : k = i
    · simp only [storeGet] at h
      rw [if_pos hp] at h
      have hv : v = a := by injection h
      have hrest : i ∉ rest.map (fun q => q.1) := hp ▸ hnd.1
      simp only [updStore, List.map_cons]
      rw [if_pos hp]
      have hu : updStore rest i b = rest := updStore_of_not_mem hrest
      simp only [updStore] at hu
      rw [hu, storeSum_cons, storeSum_cons, hv]
      ring
    · simp only [storeGet] at h
      rw [if_neg hp] at h
      simp only [updStore, List.map_cons]
      rw [if_neg hp, storeSum_cons, storeSum_cons]
      have := ih hnd.2 h
      simp only [updStore] at this
      rw [this]
      ring

theorem storeSum_delStore {st : List (Nat × MetaAgent)} {i : Nat}
    {a : MetaAgent} (hnd : (st.map (fun p => p.1)).Nodup)
    (h : storeGet st i = some a) :
    storeSum (delStore st i) = storeSum st - a.energy := by
  induction st with
  | nil => simp [storeGet] at h
  | cons p rest ih =>
    obtain ⟨k, v⟩ := p
    rw [List.map_cons, List.nodup_cons] at hnd
    by_cases hp : k = i
    · simp only [storeGet] at h
      rw [if_pos hp] at h
      have hv : v = a := by injection h
      have hrest : i ∉ rest.map (fun q => q.1) := hp ▸ hnd.1
      have hall : delStore rest i = rest := by
        unfold delStore
        apply List.filter_eq_self.mpr
        intro q hq
        simp only [bne_iff_ne, ne_eq, decide_eq_true_eq]
        intro hqi
        exact hrest (List.mem_map.mpr ⟨q, hq, hqi⟩)
      simp only [delStore, List.filter_cons]
      have hcond : ((k, v).1 != i) = false := by simp [hp]
      rw [hcond, if_neg Bool.false_ne_true]
      simp only [delStore] at hall
      rw [hall, storeSum_cons, hv]
      ring
    · simp only [storeGet] at h
      rw [if_neg hp] at h
      simp only [delStore, List.filter_cons]
      have hcond : ((k, v).1 != i) = true := by simp [hp]
      rw [hcond, if_pos rfl, storeSum_cons, storeSum_cons]
      have hi := ih hnd.2 h
      simp only [delStore] at hi
      rw [hi]
      ring

theorem startsWithL_iff (pat : List Char) : ∀ (s : List Char),
    startsWithL pat s = true ↔ ∃ r, s = pat ++ r := by
  induction pat with
  | nil =>
    intro s
    simp [startsWithL]
  | cons a as ih =>
    intro s
    cases s with
    | nil => simp [startsWithL]
    | cons b bs =>
      simp only [startsWithL, Bool.and_eq_true, beq_iff_eq, ih bs,
        List.cons_append, List.cons.injEq]
      constructor
      · rintro ⟨hab, r, hr⟩
        exact ⟨r, hab.symm, hr⟩
      · rintro ⟨r, hba, hr⟩
        exact ⟨hba.symm, r, hr⟩

theorem containsL_iff (pat : List Char) : ∀ (s : List Char),
    containsL pat s = true ↔ ∃ l r, s = l ++ pat ++ r := by
  intro s
  induction s with
  | nil =>
    simp only [containsL, startsWithL_iff]
    constructor
    · rintro ⟨r, hr⟩
      exact ⟨[], r, by simpa using hr⟩
    · rintro ⟨l, r, hr⟩
      have h := hr.symm
      simp only [List.append_assoc, List.append_eq_nil] at h
      exact ⟨[], by simp [h.1, h.2.1, h.2.2]⟩
  | cons c cs ih =>
    simp only [containsL, Bool.or_eq_true, startsWithL_iff, ih]
    constructor
    · rintro (⟨r, hr⟩ | ⟨l, r, hr⟩)
      · exact ⟨[], r, by simpa using hr⟩
      · exact ⟨c :: l, r, by simp [hr]⟩
    · rintro ⟨l, r, hr⟩
      cases l with
      | nil =>
        exact Or.inl ⟨r, by simpa using hr⟩
      | cons x xs =>
        simp only [List.cons_append, List.cons.injEq, List.append_assoc] at hr
        right
        exact ⟨xs, r, by simp [hr.2]⟩

theorem splitU_ne_nil (s : List Char) : splitU s ≠ [] := by
  cases s with
  | nil => simp [splitU]
  | cons c cs =>
    simp only [splitU]
    cases h : splitU cs with
    | nil => simp
    | cons hh tt =>
      by_cases hc : c == '_' <;> simp [hc]

theorem splitU_length (s : List Char) :
    (splitU s).length = s.count '_' + 1 := by
  induction s with
  | nil => simp [splitU]
  | cons c cs ih =>
    simp only [splitU]
    cases h : splitU cs with
    | nil => exact absurd h (splitU_ne_nil cs)
    | cons hh tt =>
      rw [h] at ih
      by_cases hc : c = '_'
      · have hb : (c == '_') = true := by simp [hc]
        simp only [hb, if_pos rfl, List.length_cons, List.count_cons, hc]
        simp at ih ⊢
        omega
      · have hb : (c == '_') = false := by simp [hc]
        rw [hb]
        simp only [Bool.false_eq_true, if_false, List.length_cons,
          List.count_cons]
        have : (c == '_') = false := hb
        simp [this] at ih ⊢
        omega

theorem check_for_loops_iff (ctx : List String) :
    check_for_loops ctx = true ↔ ¬ ctx.Nodup := by
  unfold check_for_loops
  rw [bne_iff_ne]
  constructor
  · intro hne hnd
    exact hne (by rw [List.dedup_eq_self.mpr hnd])
  · intro hnd hne
    exact hnd (by
      have hsub := List.dedup_sublist ctx
      have heq := hsub.eq_of_length hne.symm
      rw [← heq]
      exact List.nodup_dedup ctx)

theorem mem_pushBounded (l : List Insight) (i : Insight) :
    i ∈ pushBounded l i := by
  unfold pushBounded
  by_cases h : (l ++ [i]).length > 100
  · simp only [if_pos h]
    cases l with
    | nil => simp at h
    | cons x xs => simp
  · simp only [if_neg h]
    simp

/- ------------------------------------------------------------------
Claim theorems.
------------------------------------------------------------------ -/

/-- C1: the claim says `terminateAgent` on a registered top-level agent
with two subagents removes the id, returns the agent's own residual
energy to the pool, sets `active=false` on both subagents and returns a
found result.  The code instead deadlocks: the recursive cascade
re-acquires the non-reentrant shared lock, so the call never returns.
This theorem evaluates the embedded code at the failing input: `sK` is
exactly the state reached by spawning one top-level agent and calling
`create_subagent` twice (first conjunct), its registered agent 0 holds
two subagents (doubly appended), and `terminate_agent` on it yields the
deadlock instead of a found result. -/
theorem C1_terminate_cascade_deadlocks :
    sTwoKids = sK ∧
    (storeGet sK.store 0).map (fun a => a.subagents) = some [1, 1, 2, 2] ∧
    sK.registered = [0] ∧
    terminate_agent sK 0 = .error "deadlock: threading.Lock is not reentrant" := by
  refine ⟨?_, rfl, rfl, rfl⟩
  norm_num [sTwoKids, sK, sOne, spawn_new_agent, initSystem, freshAgent,
    create_subagent, storeGet, updStore, agK0, agK1, agK2]
  exact ⟨rfl, rfl⟩

/-- C2: the claim says every agent surviving a self-preservation cycle
satisfies all four axioms, compliance being their conjunction.  The code
cannot even evaluate the conjunction: the `thread_safety` axiom reads
`x.lock` on a `MetaAgent`, which has no such attribute, so the axiom
check raises `AttributeError` on any agent that passes the first three
axioms and the whole cycle aborts.  Evaluated here on a freshly spawned,
perfectly healthy agent: the first three axioms hold, yet both the
per-agent conjunction and the full self-preservation cycle end in the
`AttributeError`. -/
theorem C2_self_preservation_cycle_crashes :
    (freshAgent 0).energy > 0 ∧
    (freshAgent 0).context.length < 20 ∧
    (freshAgent 0).subagents.length < 5 ∧
    all_axioms_hold (freshAgent 0) =
      .error "AttributeError: MetaAgent object has no attribute lock" ∧
    self_preservation_cycle sOne =
      .error "AttributeError: MetaAgent object has no attribute lock" := by
  refine ⟨by norm_num [freshAgent], by decide, by decide, rfl, rfl⟩

/-- C9: the loop-detection check `check_for_loops` returns true exactly
when the context has a duplicate entry; on an already-deduplicated
context it returns false (and, being pure, returns false again on a
second invocation); and deduplicating `["a","a","b"]` yields a list with
exactly the members `{"a","b"}`. -/
theorem C9_loop_detection_dedup :
    (∀ ctx : List String, check_for_loops ctx = true ↔ ¬ ctx.Nodup) ∧
    (∀ ctx : List String,
      check_for_loops (dedupPy ctx) = false ∧
      check_for_loops (dedupPy ctx) = false) ∧
    (∀ x : String, x ∈ dedupPy ["a", "a", "b"] ↔ x ∈ (["a", "b"] : List String)) := by
  have hfalse : ∀ ctx : List String, check_for_loops (dedupPy ctx) = false := by
    intro ctx
    rw [← Bool.not_eq_true, check_for_loops_iff]
    intro hcon
    exact hcon (List.nodup_dedup ctx)
  refine ⟨check_for_loops_iff, fun ctx => ⟨hfalse ctx, hfalse ctx⟩, ?_⟩
  intro x
  simp [dedupPy, List.mem_dedup]

/-- C8: decomposition produces exactly {structural, behavioral,
temporal} for a task containing "multi-aspect", exactly {base_case,
inductive_step} for one containing "recursive" alone, all five for one
containing both; and decomposition is triggered exactly when the task
has more than two underscore-delimited segments (i.e. at least two
underscores) or contains the substring "multi". -/
theorem C8_decomposition_rules :
    (∀ t : String, containsS "multi-aspect" t = true →
      containsS "recursive" t = false →
      decompose_problem t = ["structural", "behavioral", "temporal"]) ∧
    (∀ t : String, containsS "recursive" t = true →
      containsS "multi-aspect" t = false →
      decompose_problem t = ["base_case", "inductive_step"]) ∧
    (∀ t : String, containsS "multi-aspect" t = true →
      containsS "recursive" t = true →
      decompose_problem t =
        ["structural", "behavioral", "temporal", "base_case", "inductive_step"]) ∧
    (∀ t : String, needs_decomposition t = true ↔
      (t.data.count '_' + 1 > 2 ∨ ∃ l r, t.data = l ++ "multi".data ++ r)) := by
  refine ⟨?_, ?_, ?_, ?_⟩
  · intro t h1 h2
    simp [decompose_problem, h1, h2]
  · intro t h1 h2
    simp [decompose_problem, h1, h2]
  · intro t h1 h2
    simp [decompose_problem, h1, h2]
  · intro t
    rw [needs_decomposition, Bool.or_eq_true, decide_eq_true_eq, splitU_length,
      containsS, containsL_iff]

/-- Witness for C8 at concrete tasks: a task with both markers yields
all five components, discharging the hypotheses by computation. -/
theorem C8_witness :
    decompose_problem "multi-aspect_recursive" =
      ["structural", "behavioral", "temporal", "base_case", "inductive_step"] :=
  C8_decomposition_rules.2.2.1 "multi-aspect_recursive" (by decide) (by decide)

/-- C10: the scheduler-injected task "self_preserve" (two
underscore-delimited segments, no "multi") never triggers decomposition,
so processing it spawns no subagents, changes no state, and returns the
generic completion record with the agent's current energy. -/
theorem C10_self_preserve_direct (f : Nat) (s : SystemState) (aid : Nat)
    (a : MetaAgent) (h : storeGet s.store aid = some a) :
    needs_decomposition "self_preserve" = false ∧
    process_task (f + 2) s aid "self_preserve" =
      some (s, some (PyVal.dict
        [("status", PyVal.s "completed"), ("energy", PyVal.q a.energy)])) := by
  have hnd : needs_decomposition "self_preserve" = false := by decide
  have h1 : containsS "analyze" "self_preserve" = false := by decide
  have h2 : containsS "optimize" "self_preserve" = false := by decide
  refine ⟨hnd, ?_⟩
  have hsplit : f + 2 = (f + 1) + 1 := rfl
  rw [process_task, hsplit]
  simp only [ptRun, hnd, Bool.false_eq_true, if_false,
    execute_core_reasoning, h, h1, h2]

/-- Witness for C10 on the one-agent system: the call returns the
completion record with energy 100 and leaves the state untouched. -/
theorem C10_witness :
    process_task 2 sOne 0 "self_preserve" =
      some (sOne, some (PyVal.dict
        [("status", PyVal.s "completed"), ("energy", PyVal.q 100)])) :=
  (C10_self_preserve_direct 0 sOne 0 (freshAgent 0) rfl).2

/-- C7: `create_subagent` on a parent with energy exactly 100 creates a
child with energy 50 and leaves the parent at 50; on a parent with
energy at most 40 it returns no child and the whole system state is
unchanged. -/
theorem C7_create_subagent_energy :
    (∀ (s : SystemState) (pid : Nat) (p : MetaAgent) (purpose : Option String),
      SysWF s → storeGet s.store pid = some p → p.energy = 100 →
      (create_subagent s pid purpose).2 = some s.nextId ∧
      (storeGet (create_subagent s pid purpose).1.store s.nextId).map
        (fun c => c.energy) = some 50 ∧
      (storeGet (create_subagent s pid purpose).1.store pid).map
        (fun c => c.energy) = some 50) ∧
    (∀ (s : SystemState) (pid : Nat) (p : MetaAgent) (purpose : Option String),
      storeGet s.store pid = some p → p.energy ≤ 40 →
      create_subagent s pid purpose = (s, none)) := by
  constructor
  · intro s pid p purpose hwf h he
    have hgt : p.energy > 40 := by rw [he]; norm_num
    have hpidmem : pid ∈ s.store.map (fun q => q.1) :=
      List.mem_map.mpr ⟨(pid, p), storeGet_mem h, rfl⟩
    have hpidlt : pid < s.nextId := by
      exact hwf.2.2.2.2 (pid, p) (storeGet_mem h)
    have hne : pid ≠ s.nextId := Nat.ne_of_lt hpidlt
    have hfresh : s.nextId ∉ (updStore s.store pid
        { p with energy := p.energy - p.energy * (1 / 2),
                 subagents := p.subagents ++ [s.nextId, s.nextId] }).map
        (fun q => q.1) := by
      rw [updStore_keys]
      intro hmem
      obtain ⟨q, hq, hq1⟩ := List.mem_map.mp hmem
      have := hwf.2.2.2.2 q hq
      omega
    simp only [create_subagent, h]
    rw [if_pos hgt]
    refine ⟨rfl, ?_, ?_⟩
    · rw [storeGet_append, storeGet_none_of_not_mem hfresh]
      simp only [storeGet, if_pos rfl, Option.map_some]
      rw [he]
      norm_num
    · rw [storeGet_append, storeGet_updStore_self h]
      simp only [Option.map_some]
      rw [he]
      norm_num
  · intro s pid p purpose h hle
    simp only [create_subagent, h]
    rw [if_neg (not_lt.mpr hle)]

/-- Witness for C7: the fresh agent (energy 100) and the low-energy
agent (energy 30). -/
theorem C7_witness :
    ((create_subagent sOne 0 none).2 = some 1 ∧
     (storeGet (create_subagent sOne 0 none).1.store 1).map
       (fun c => c.energy) = some 50 ∧
     (storeGet (create_subagent sOne 0 none).1.store 0).map
       (fun c => c.energy) = some 50) ∧
    create_subagent sLow 0 none = (sLow, none) :=
  ⟨C7_create_subagent_energy.1 sOne 0 (freshAgent 0) none (by decide) rfl rfl,
   C7_create_subagent_energy.2 sLow 0 agentLow none rfl
     (by norm_num [agentLow])⟩

/-- C3 counterexample: the claim says a successful `createSubagent`
appends the child to the parent's `subagents` exactly once, so after one
successful call on a fresh parent the list would have length 1.  On the
code the list has length 2: the child is appended in
`MetaAgent.__init__` (line 49) and again in `create_subagent` (line 91). -/
theorem C3_counterexample :
    (storeGet (create_subagent sOne 0 none).1.store 0).map
      (fun q => q.subagents.length) ≠ some 1 ∧
    (storeGet (create_subagent sOne 0 none).1.store 0).map
      (fun q => q.subagents.length) = some 2 := by
  have h : (storeGet (create_subagent sOne 0 none).1.store 0).map
      (fun q => q.subagents.length) = some 2 := by
    norm_num [create_subagent, sOne, spawn_new_agent, initSystem, freshAgent,
      storeGet, updStore]
  refine ⟨?_, h⟩
  rw [h]
  simp

/-- C3 amended: every successful `createSubagent` call appends the new
child id to the parent's `subagents` list exactly TWICE (once in the
child's constructor, once in `create_subagent` itself), so the list
grows by exactly two entries, both referencing the same new child. -/
theorem C3_subagents_grow_by_two (s : SystemState) (pid : Nat)
    (p : MetaAgent) (purpose : Option String)
    (h : storeGet s.store pid = some p) (he : p.energy > 40) :
    (create_subagent s pid purpose).2 = some s.nextId ∧
    (storeGet (create_subagent s pid purpose).1.store pid).map
      (fun q => q.subagents) = some (p.subagents ++ [s.nextId, s.nextId]) := by
  simp only [create_subagent, h]
  rw [if_pos he]
  refine ⟨rfl, ?_⟩
  rw [storeGet_append, storeGet_updStore_self h]
  rfl

/-- Witness for C3's amended statement on the fresh one-agent system:
the parent's list goes from `[]` to `[1, 1]`. -/
theorem C3_witness :
    (create_subagent sOne 0 none).2 = some 1 ∧
    (storeGet (create_subagent sOne 0 none).1.store 0).map
      (fun q => q.subagents) = some [1, 1] :=
  C3_subagents_grow_by_two sOne 0 (freshAgent 0) none rfl
    (by norm_num [freshAgent])

/-- C6: whenever the `try` body of `process_task` raises (any exception
text `e`, with `s1` the program state at the raise, and the agent
present), the exception is not propagated: `process_task` returns the
null result, the failure record (error type, context, energy at failure)
is appended to the agent's own insight log, the same record enters the
system's bounded insight log, the agent's `reasoning_mode` becomes
"adaptive", and its energy increases by exactly 10. -/
theorem C6_exception_caught (f : Nat) (s : SystemState) (aid : Nat)
    (task e : String) (s1 : SystemState) (a : MetaAgent)
    (hbody : ptBody f s aid task = some (.error (e, s1)))
    (ha : storeGet s1.store aid = some a) :
    process_task (f + 1) s aid task =
      some (learn_from_failure s1 aid e, none) ∧
    (storeGet (learn_from_failure s1 aid e).store aid).map
      (fun x => x.insights) =
      some (a.insights ++ [mk_failure_insight e a]) ∧
    (storeGet (learn_from_failure s1 aid e).store aid).map
      (fun x => x.reasoning_mode) = some "adaptive" ∧
    (storeGet (learn_from_failure s1 aid e).store aid).map
      (fun x => x.energy) = some (a.energy + 10) ∧
    mk_failure_insight e a ∈ (learn_from_failure s1 aid e).sysInsights := by
  have hrun : ptRun f s (.bodyC aid task) = some (.bodyA (.error (e, s1))) := by
    unfold ptBody at hbody
    cases hr : ptRun f s (.bodyC aid task) with
    | none => rw [hr] at hbody; simp at hbody
    | some ans =>
      cases ans with
      | mainA s' r => rw [hr] at hbody; simp at hbody
      | bodyA r =>
        rw [hr] at hbody
        simp only [Option.some.injEq] at hbody
        rw [hbody]
      | compsA s' => rw [hr] at hbody; simp at hbody
      | synthA r => rw [hr] at hbody; simp at hbody
  have hga : storeGet (learn_from_failure s1 aid e).store aid =
      some { a with insights := a.insights ++ [mk_failure_insight e a],
                    reasoning_mode := "adaptive",
                    energy := a.energy + 10 } := by
    simp only [learn_from_failure, ha, putAgent]
    exact storeGet_updStore_self ha
  refine ⟨?_, ?_, ?_, ?_, ?_⟩
  · rw [process_task]
    simp only [ptRun, hrun]
  · rw [hga]
    rfl
  · rw [hga]
    rfl
  · rw [hga]
    rfl
  · simp only [learn_from_failure, ha, putAgent]
    exact mem_pushBounded s1.sysInsights (mk_failure_insight e a)

/-- Witness for C6: in `sW` the registered agent 0 has two references to
subagent 1 whose task stack is empty, so processing the task "multi"
(which decomposes into zero components and then synthesizes) raises
`IndexError` on `task_stack[-1]`; the handler fires with the +10 bonus,
the adaptive mode, the two log appends, and the null result. -/
theorem C6_witness :
    process_task 4 sW 0 "multi" =
      some (learn_from_failure sW 0 "IndexError: deque index out of range",
        none) ∧
    (storeGet (learn_from_failure sW 0
        "IndexError: deque index out of range").store 0).map
      (fun x => x.insights) =
      some (agentW0.insights ++
        [mk_failure_insight "IndexError: deque index out of range" agentW0]) ∧
    (storeGet (learn_from_failure sW 0
        "IndexError: deque index out of range").store 0).map
      (fun x => x.reasoning_mode) = some "adaptive" ∧
    (storeGet (learn_from_failure sW 0
        "IndexError: deque index out of range").store 0).map
      (fun x => x.energy) = some (agentW0.energy + 10) ∧
    mk_failure_insight "IndexError: deque index out of range" agentW0 ∈
      (learn_from_failure sW 0
        "IndexError: deque index out of range").sysInsights :=
  C6_exception_caught 3 sW 0 "multi" "IndexError: deque index out of range"
    sW agentW0 rfl rfl

theorem storeGet_bumpStore (st : List (Nat × MetaAgent)) (reg : List Nat)
    (share : ℚ) (i : Nat) :
    storeGet (bumpStore st reg share) i =
      (storeGet st i).map
        (fun a => if reg.contains i then { a with energy := a.energy + share }
                  else a) := by
  induction st with
  | nil => simp [storeGet, bumpStore]
  | cons p rest ih =>
    obtain ⟨k, v⟩ := p
    simp only [bumpStore, List.map_cons] at ih ⊢
    by_cases hr : reg.contains k = true
    · rw [if_pos hr]
      simp only [storeGet]
      by_cases hk : k = i
      · subst hk
        rw [if_pos rfl, if_pos rfl]
        rw [Option.map_some', if_pos hr]
      · rw [if_neg hk, if_neg hk]
        exact ih
    · rw [if_neg hr]
      simp only [storeGet]
      by_cases hk : k = i
      · subst hk
        rw [if_pos rfl, if_pos rfl]
        rw [Option.map_some', if_neg hr]
      · rw [if_neg hk, if_neg hk]
        exact ih

theorem sum_map_add_share (reg : List Nat) (f : Nat → ℚ) (share : ℚ) :
    (reg.map (fun i => f i + share)).sum =
      (reg.map f).sum + reg.length * share := by
  induction reg with
  | nil => simp
  | cons x xs ih =>
    simp only [List.map_cons, List.sum_cons, ih, List.length_cons]
    push_cast
    ring

/-- C5: with at least one registered agent, `distribute_energy` zeroes
the pool, raises the sum of registered agents' energies by exactly the
old pool (so the pre-call total is preserved), and gives every
registered agent the same share `pool / n`; with an empty registry it is
a no-op. -/
theorem C5_distribute_conservation (s : SystemState) (hwf : SysWF s) :
    (s.registered ≠ [] →
      (distribute_energy s).energy_budget = 0 ∧
      regSum (distribute_energy s) = s.energy_budget + regSum s ∧
      (∀ i ∈ s.registered, ∀ a, storeGet s.store i = some a →
        storeGet (distribute_energy s).store i =
          some { a with energy :=
            a.energy + s.energy_budget / (s.registered.length : ℚ) })) ∧
    (s.registered = [] → distribute_energy s = s) := by
  constructor
  · intro hne
    have hlen : s.registered.length > 0 := List.length_pos.mpr hne
    have hdist : distribute_energy s =
        { s with store := bumpStore s.store s.registered
                   (s.energy_budget / (s.registered.length : ℚ)),
                 energy_budget := 0 } := by
      unfold distribute_energy
      rw [if_pos hlen]
    refine ⟨by rw [hdist], ?_, ?_⟩
    · rw [hdist]
      unfold regSum
      dsimp only
      have hmap : s.registered.map (fun i =>
          match storeGet (bumpStore s.store s.registered
            (s.energy_budget / (s.registered.length : ℚ))) i with
          | some a => a.energy
          | none => 0) =
        s.registered.map (fun i =>
          (match storeGet s.store i with
           | some a => a.energy
           | none => 0) +
          s.energy_budget / (s.registered.length : ℚ)) := by
        apply List.map_congr_left
        intro i hi
        rw [storeGet_bumpStore]
        have hc : s.registered.contains i = true := lcontains_iff.mpr hi
        obtain ⟨a, ha⟩ := Option.isSome_iff_exists.mp (hwf.2.2.1 i hi)
        rw [ha]
        simp [hc, hi]
      rw [hmap, sum_map_add_share, mul_div_cancel₀]
      · ring
      · exact_mod_cast Nat.pos_iff_ne_zero.mp hlen
    · intro i hi a ha
      rw [hdist]
      dsimp only
      rw [storeGet_bumpStore, ha]
      simp [lcontains_iff.mpr hi, hi]
  · intro hempty
    unfold distribute_energy
    rw [if_neg (by rw [hempty]; simp)]

/-- Witness for C5 on the one-agent system: the pool is zeroed and the
registered sum absorbs it. -/
theorem C5_witness :
    (distribute_energy sOne).energy_budget = 0 ∧
    regSum (distribute_energy sOne) = sOne.energy_budget + regSum sOne :=
  ⟨((C5_distribute_conservation sOne (by decide)).1 (by decide)).1,
   ((C5_distribute_conservation sOne (by decide)).1 (by decide)).2.1⟩

theorem storeSum_bumpStore (st : List (Nat × MetaAgent)) (reg : List Nat)
    (share : ℚ) :
    storeSum (bumpStore st reg share) =
      storeSum st + ((st.countP (fun p => reg.contains p.1) : Nat) : ℚ) * share := by
  induction st with
  | nil => simp [storeSum, bumpStore]
  | cons p rest ih =>
    obtain ⟨k, v⟩ := p
    simp only [bumpStore, List.map_cons] at ih ⊢
    by_cases hr : reg.contains k = true
    · rw [if_pos hr, storeSum_cons, storeSum_cons, ih, List.countP_cons]
      simp only [hr, if_pos rfl]
      push_cast
      ring
    · rw [if_neg hr, storeSum_cons, storeSum_cons, ih, List.countP_cons]
      simp only [hr]
      push_cast
      ring

theorem countP_reg_length (st : List (Nat × MetaAgent)) (reg : List Nat)
    (hnd : (st.map (fun p => p.1)).Nodup) (hr : reg.Nodup)
    (hsub : ∀ i ∈ reg, (storeGet st i).isSome = true) :
    st.countP (fun p => reg.contains p.1) = reg.length := by
  have h1 : st.countP (fun p => reg.contains p.1) =
      (st.map (fun p => p.1)).countP (fun k => reg.contains k) := by
    rw [List.countP_map]
    rfl
  rw [h1, List.countP_eq_length_filter]
  have hperm : ((st.map (fun p => p.1)).filter
      (fun k => reg.contains k)).Perm reg := by
    apply List.perm_of_nodup_nodup_toFinset_eq (hnd.filter _) hr
    ext x
    simp only [List.mem_toFinset, List.mem_filter]
    constructor
    · rintro ⟨hx, hc⟩
      exact lcontains_iff.mp hc
    · intro hx
      refine ⟨?_, lcontains_iff.mpr hx⟩
      obtain ⟨a, ha⟩ := Option.isSome_iff_exists.mp (hsub x hx)
      exact List.mem_map.mpr ⟨(x, a), storeGet_mem ha, rfl⟩
  exact hperm.length_eq

theorem distribute_total (s : SystemState) (hwf : SysWF s) :
    totalEnergy (distribute_energy s) = totalEnergy s := by
  by_cases hlen : s.registered.length > 0
  · unfold distribute_energy
    rw [if_pos hlen]
    unfold totalEnergy
    dsimp only
    rw [storeSum_bumpStore,
      countP_reg_length s.store s.registered hwf.1 hwf.2.1 hwf.2.2.1,
      mul_div_cancel₀]
    · ring
    · exact_mod_cast Nat.pos_iff_ne_zero.mp hlen
  · unfold distribute_energy
    rw [if_neg hlen]

theorem termRun_many_nil (g : Nat) (lockHeld : Bool) (s : SystemState) :
    termRun (g + 1) lockHeld s (.many []) = .ok (s, true) := rfl

theorem termRun_many_cons (g : Nat) (s : SystemState) (sub : Nat)
    (rest : List Nat) :
    termRun (g + 2) true s (.many (sub :: rest)) =
      .error "deadlock: threading.Lock is not reentrant" := rfl

theorem termRun_one_step (g : Nat) (s : SystemState) (aid : Nat) :
    termRun (g + 3) false s (.one aid) =
      (if s.registered.contains aid = true then
        match storeGet s.store aid with
        | none => Except.error "registry entry without object"
        | some agent =>
          match termRun (g + 2) true
              { s with store := updStore s.store aid
                         { agent with active := false },
                       energy_budget := s.energy_budget + agent.energy }
              (.many agent.subagents) with
          | .error e => .error e
          | .ok (s2, _) =>
            .ok ({ s2 with registered := removeId s2.registered aid,
                           store := delStore s2.store aid }, true)
      else Except.ok (s, false)) := rfl

theorem termRun_one_total (g : Nat) (s : SystemState) (aid : Nat)
    (s' : SystemState) (b : Bool) (hwf : SysWF s)
    (h : termRun (g + 3) false s (.one aid) = .ok (s', b)) :
    totalEnergy s' = totalEnergy s := by
  rw [termRun_one_step] at h
  by_cases hreg : s.registered.contains aid = true
  · rw [if_pos hreg] at h
    cases hga : storeGet s.store aid with
    | none =>
      rw [hga] at h
      simp at h
    | some agent =>
      rw [hga] at h
      dsimp only at h
      cases hsubs : agent.subagents with
      | nil =>
        rw [hsubs, termRun_many_nil] at h
        dsimp only at h
        simp only [Except.ok.injEq, Prod.mk.injEq] at h
        rw [← h.1]
        unfold totalEnergy
        dsimp only
        have hnd1 : ∀ R : MetaAgent, ((updStore s.store aid R).map
            (fun p => p.1)).Nodup := fun R => by
          rw [updStore_keys]
          exact hwf.1
        rw [storeSum_delStore (hnd1 _) (storeGet_updStore_self hga),
          storeSum_updStore hwf.1 hga]
        ring
      | cons sub rest =>
        rw [hsubs, termRun_many_cons] at h
        simp at h
  · rw [if_neg hreg] at h
    simp only [Except.ok.injEq, Prod.mk.injEq] at h
    rw [← h.1]

theorem terminate_total (s : SystemState) (aid : Nat) (s' : SystemState)
    (b : Bool) (hwf : SysWF s)
    (h : terminate_agent s aid = .ok (s', b)) :
    totalEnergy s' = totalEnergy s := by
  unfold terminate_agent at h
  exact termRun_one_total s.store.length s aid s' b hwf h

theorem createSub_total (s : SystemState) (pid : Nat)
    (purpose : Option String) (hwf : SysWF s) :
    totalEnergy (create_subagent s pid purpose).1 = totalEnergy s := by
  cases hg : storeGet s.store pid with
  | none => simp [create_subagent, hg]
  | some p =>
    by_cases he : p.energy > 40
    · simp only [create_subagent, hg]
      rw [if_pos he]
      unfold totalEnergy
      dsimp only
      rw [storeSum_append, storeSum_updStore hwf.1 hg]
      simp only [storeSum, List.map_cons, List.map_nil, List.sum_cons,
        List.sum_nil]
      ring
    · simp only [create_subagent, hg]
      rw [if_neg he]

theorem learnFail_total (s : SystemState) (aid : Nat) (e : String)
    (hwf : SysWF s) :
    totalEnergy (learn_from_failure s aid e) =
      totalEnergy s + (if (storeGet s.store aid).isSome then 10 else 0) := by
  cases hg : storeGet s.store aid with
  | none => simp [learn_from_failure, hg]
  | some a =>
    show totalEnergy (learn_from_failure s aid e) = totalEnergy s + 10
    simp only [learn_from_failure, hg, putAgent]
    unfold totalEnergy
    dsimp only
    rw [storeSum_updStore hwf.1 hg]
    ring

theorem consolidate_step_invar (s : SystemState) (pid sub : Nat)
    (hnd : (s.store.map (fun p => p.1)).Nodup) (hne : sub ≠ pid) :
    totalEnergy (consolidate_step s pid sub) = totalEnergy s ∧
    (consolidate_step s pid sub).store.map (fun p => p.1) =
      s.store.map (fun p => p.1) := by
  cases hgp : storeGet s.store pid with
  | none =>
    unfold consolidate_step
    rw [hgp]
    exact ⟨rfl, rfl⟩
  | some p =>
    cases hgc : storeGet s.store sub with
    | none =>
      unfold consolidate_step
      rw [hgp]
      dsimp only
      rw [hgc]
      exact ⟨rfl, rfl⟩
    | some c =>
      have hs1 : storeGet (updStore s.store pid
          { p with context := p.context ++ c.context,
                   energy := p.energy + c.energy }) sub = some c := by
        rw [storeGet_updStore_other hne, hgc]
      have hstep : consolidate_step s pid sub =
          putAgent (putAgent s pid
            { p with context := p.context ++ c.context,
                     energy := p.energy + c.energy }) sub
            { c with energy := 0, active := false } := by
        unfold consolidate_step
        rw [hgp]
        dsimp only
        rw [hgc]
        dsimp only [putAgent]
        rw [hs1]
      rw [hstep]
      have hnd1 : ∀ R : MetaAgent, ((updStore s.store pid R).map
          (fun q => q.1)).Nodup := fun R => by
        rw [updStore_keys]
        exact hnd
      constructor
      · unfold totalEnergy putAgent
        dsimp only
        rw [storeSum_updStore (hnd1 _) hs1, storeSum_updStore hnd hgp]
        have h0 : ({ c with energy := 0, active := false } :
            MetaAgent).energy = 0 := rfl
        rw [h0]
        ring
      · unfold putAgent
        dsimp only
        rw [updStore_keys, updStore_keys]

theorem consolidate_fold_invar (l : List Nat) (pid : Nat) :
    ∀ (s : SystemState), (s.store.map (fun p => p.1)).Nodup → pid ∉ l →
    totalEnergy (l.foldl (fun st sub => consolidate_step st pid sub) s) =
      totalEnergy s ∧
    (l.foldl (fun st sub => consolidate_step st pid sub) s).store.map
      (fun p => p.1) = s.store.map (fun p => p.1) := by
  induction l with
  | nil =>
    intro s _ _
    exact ⟨rfl, rfl⟩
  | cons x xs ih =>
    intro s hnd hpid
    simp only [List.foldl_cons]
    have hx : x ≠ pid := fun hh => hpid (hh ▸ List.mem_cons_self x xs)
    obtain ⟨ht, hk⟩ := consolidate_step_invar s pid x hnd hx
    obtain ⟨ht2, hk2⟩ := ih (consolidate_step s pid x)
      (by rw [hk]; exact hnd) (fun hm => hpid (List.mem_cons_of_mem _ hm))
    exact ⟨ht2.trans ht, hk2.trans hk⟩

theorem consolidate_total (s : SystemState) (pid : Nat) (hwf : SysWF s) :
    totalEnergy (consolidate_subagents s pid) = totalEnergy s := by
  unfold consolidate_subagents
  cases hgp : storeGet s.store pid with
  | none => rfl
  | some p =>
    dsimp only
    have hpid : pid ∉ p.subagents := hwf.2.2.2.1 (pid, p) (storeGet_mem hgp)
    obtain ⟨ht, hk⟩ := consolidate_fold_invar p.subagents pid s hwf.1 hpid
    cases hg2 : storeGet (p.subagents.foldl
        (fun st sub => consolidate_step st pid sub) s).store pid with
    | none => exact ht
    | some p2 =>
      show totalEnergy (putAgent (p.subagents.foldl
          (fun st sub => consolidate_step st pid sub) s) pid
          { p2 with subagents := [] }) = totalEnergy s
      have hnd2 : ((p.subagents.foldl
          (fun st sub => consolidate_step st pid sub) s).store.map
          (fun q => q.1)).Nodup := by
        rw [hk]
        exact hwf.1
      unfold putAgent totalEnergy
      dsimp only
      rw [storeSum_updStore hnd2 hg2]
      have henergy : ({ p2 with subagents := ([] : List Nat) }).energy =
          p2.energy := rfl
      rw [henergy, sub_add_cancel]
      exact ht

/-- C4 counterexample: the claim lists child creation, termination,
redistribution and top-level creation as the only operations changing
`energy_pool + Σ energy`, with "no other operation" creating energy.
But the failure-recovery path `learn_from_failure` — none of those four
operations — creates 10 units of energy from nowhere: on the one-agent
system (total 1100) it yields total 1110. -/
theorem C4_counterexample :
    totalEnergy (learn_from_failure sOne 0 "RuntimeError") =
      totalEnergy sOne + 10 ∧ (10 : ℚ) ≠ 0 := by
  constructor
  · norm_num [learn_from_failure, sOne, spawn_new_agent, initSystem,
      freshAgent, storeGet, updStore, putAgent, pushBounded,
      mk_failure_insight, totalEnergy, storeSum]
  · norm_num

/-- C4 amended: on every well-formed state, each system operation
changes `totalEnergy` (pool + energy of all live agents) by exactly its
`opDelta`: top-level spawning creates the fixed 100-point allotment from
nowhere, the failure bonus creates exactly 10 from nowhere, and child
creation, termination, redistribution and consolidation all conserve the
total. -/
theorem C4_energy_economy (s : SystemState) (op : SysOp) (s' : SystemState)
    (hwf : SysWF s) (h : applyOp s op = .ok s') :
    totalEnergy s' = totalEnergy s + opDelta s op := by
  cases op with
  | spawnOp t =>
    simp only [applyOp, Except.ok.injEq] at h
    subst h
    simp only [opDelta]
    cases t with
    | none =>
      unfold spawn_new_agent totalEnergy
      dsimp only
      rw [storeSum_append]
      simp only [storeSum, List.map_cons, List.map_nil, List.sum_cons,
        List.sum_nil, freshAgent]
      ring
    | some tk =>
      unfold spawn_new_agent totalEnergy
      dsimp only
      rw [storeSum_append]
      simp only [storeSum, List.map_cons, List.map_nil, List.sum_cons,
        List.sum_nil, freshAgent]
      ring
  | terminateOp aid =>
    simp only [applyOp] at h
    cases hterm : terminate_agent s aid with
    | error e =>
      rw [hterm] at h
      simp at h
    | ok r =>
      obtain ⟨s2, b⟩ := r
      rw [hterm] at h
      simp only [Except.ok.injEq] at h
      subst h
      simp only [opDelta]
      rw [add_zero]
      exact terminate_total s aid s2 b hwf hterm
  | distributeOp =>
    simp only [applyOp, Except.ok.injEq] at h
    subst h
    simp only [opDelta]
    rw [add_zero]
    exact distribute_total s hwf
  | createSubOp aid p =>
    simp only [applyOp, Except.ok.injEq] at h
    subst h
    simp only [opDelta]
    rw [add_zero]
    exact createSub_total s aid p hwf
  | learnFailOp aid e =>
    simp only [applyOp, Except.ok.injEq] at h
    subst h
    simp only [opDelta]
    exact learnFail_total s aid e hwf
  | consolidateOp aid =>
    simp only [applyOp, Except.ok.injEq] at h
    subst h
    simp only [opDelta]
    rw [add_zero]
    exact consolidate_total s aid hwf

/-- Witness for C4's amended statement: the failure bonus on the
one-agent system creates exactly `opDelta` = 10. -/
theorem C4_witness :
    totalEnergy (learn_from_failure sOne 0 "KeyError") =
      totalEnergy sOne + opDelta sOne (.learnFailOp 0 "KeyError") :=
  C4_energy_economy sOne (.learnFailOp 0 "KeyError")
    (learn_from_failure sOne 0 "KeyError") (by decide) rfl
